import Mathlib

/-!
Verification of the trench worktree manager against its specification.

Each section embeds one part of the Rust source as executable Lean
definitions (pure functions directly, stateful code as explicit state
passing, fallible code as `Except`), and proves or refutes the spec's
claims about it.
-/

namespace Trench

/-! ## src/paths.rs : `sanitize_branch`

The Rust function first replaces every non-overlapping `".."` with `"-"`
(`str::replace`), then walks the characters pushing `'-'` for
`'/' | '@' | ' ' | '-'` only when the accumulated result does not already
end in `'-'`, and finally trims leading and trailing dashes. -/

/-- Left-to-right non-overlapping replacement of `".."` by `"-"`,
as performed by `branch.replace("..", "-")`. -/
def replaceDotDot : List Char → List Char
  | [] => []
  | [c] => [c]
  | c :: d :: rest =>
    if c = '.' ∧ d = '.' then '-' :: replaceDotDot rest
    else c :: replaceDotDot (d :: rest)

/-- The character loop of `sanitize_branch`, accumulating the result in
reverse order (`acc.head?` is the last character pushed, mirroring
`result.ends_with('-')`). -/
def sanLoop (acc : List Char) : List Char → List Char
  | [] => acc
  | c :: rest =>
    if c = '/' ∨ c = '@' ∨ c = ' ' ∨ c = '-' then
      sanLoop (if acc.head? = some '-' then acc else '-' :: acc) rest
    else
      sanLoop (c :: acc) rest

/-- `result.trim_matches('-')`: drop leading and trailing dashes. -/
def trimDashes (l : List Char) : List Char :=
  ((l.dropWhile (fun c => c = '-')).reverse.dropWhile (fun c => c = '-')).reverse

/-- `sanitize_branch` on character lists. -/
def sanitizeChars (s : List Char) : List Char :=
  trimDashes (sanLoop [] (replaceDotDot s)).reverse

/-- `paths::sanitize_branch`: sanitize a branch name for use as a
filesystem directory name. -/
def sanitize_branch (s : String) : String :=
  ⟨sanitizeChars s.data⟩

/-- `true` iff `l` nowhere has two consecutive occurrences of `a`. -/
def noAdjPair (a : Char) : List Char → Bool
  | x :: y :: rest => (!(x = a && y = a)) && noAdjPair a (y :: rest)
  | _ => true

/-! ## src/state : persistent store model

A worktree table is a list of rows; SQL statements from
`src/state/queries.rs` are embedded as list transformations. -/

/-- One row of the `worktrees` table. Fields follow `state::Worktree`
(`src/state/mod.rs`); `removed_at` is the soft-delete column of the table,
written by `cli/commands/remove.rs` through the update path (the schema
file `src/state/sql/001_initial_schema.sql` itself is not in the
snapshot). -/
structure WorktreeRow where
  id : Int
  repo_id : Int
  name : String
  branch : String
  path : String
  base_branch : Option String
  managed : Bool
  adopted_at : Option Int
  last_accessed : Option Int
  removed_at : Option Int
  created_at : Int
deriving Repr, DecidableEq

/-- Stable insertion step for ordering rows by `created_at` ascending. -/
def insertByCreated (w : WorktreeRow) : List WorktreeRow → List WorktreeRow
  | [] => [w]
  | x :: xs => if w.created_at < x.created_at then w :: x :: xs else x :: insertByCreated w xs

/-- `ORDER BY created_at` over a row list. -/
def orderByCreated : List WorktreeRow → List WorktreeRow
  | [] => []
  | x :: xs => insertByCreated x (orderByCreated xs)

/-- `Database::list_worktrees` (`src/state/queries.rs`): the SQL is
`SELECT ... FROM worktrees WHERE repo_id = ?1 ORDER BY created_at`;
there is no further filtering. -/
def list_worktrees (table : List WorktreeRow) (repo_id : Int) : List WorktreeRow :=
  orderByCreated (table.filter (fun w => w.repo_id == repo_id))

/-- `state::WorktreeUpdate` (`src/state/mod.rs`): partial update fields.
For nullable columns, `none` = no change, `some none` = set NULL,
`some (some v)` = set value; for the NOT NULL `managed`, `none` = no
change, `some v` = set. -/
structure WorktreeUpdate where
  last_accessed : Option (Option Int) := none
  adopted_at : Option (Option Int) := none
  managed : Option Bool := none
  base_branch : Option (Option String) := none
deriving Repr

/-- The `sets` vector built by `Database::update_worktree`: one SET clause
per present field, in source order. -/
def setsOf (u : WorktreeUpdate) : List (WorktreeRow → WorktreeRow) :=
  (match u.last_accessed with
   | some v => [fun w => { w with last_accessed := v }]
   | none => []) ++
  (match u.adopted_at with
   | some v => [fun w => { w with adopted_at := v }]
   | none => []) ++
  (match u.managed with
   | some v => [fun w => { w with managed := v }]
   | none => []) ++
  (match u.base_branch with
   | some v => [fun w => { w with base_branch := v }]
   | none => [])

/-- `Database::update_worktree` (`src/state/queries.rs`): if no field is
present it returns `Ok(())` immediately; otherwise it runs
`UPDATE worktrees SET ... WHERE id = ?` and fails when zero rows were
affected. -/
def update_worktree (table : List WorktreeRow) (id : Int) (u : WorktreeUpdate) :
    Except String (List WorktreeRow) :=
  let sets := setsOf u
  if sets.isEmpty then
    .ok table
  else
    let affected := (table.filter (fun w => w.id == id)).length
    if affected = 0 then
      .error "worktree not found"
    else
      .ok (table.map (fun w => if w.id == id then sets.foldl (fun w f => f w) w else w))

/-- Spec-side description of a partial update applied to one row, written
from the spec's words: per nullable field, absent leaves the column
unchanged, `some none` sets NULL, `some (some v)` sets the value. -/
def specApplyUpdate (u : WorktreeUpdate) (w : WorktreeRow) : WorktreeRow :=
  { w with
    last_accessed :=
      match u.last_accessed with
      | none => w.last_accessed
      | some none => none
      | some (some v) => some v
    adopted_at :=
      match u.adopted_at with
      | none => w.adopted_at
      | some none => none
      | some (some v) => some v
    managed :=
      match u.managed with
      | none => w.managed
      | some v => v
    base_branch :=
      match u.base_branch with
      | none => w.base_branch
      | some none => none
      | some (some v) => some v }

/-- Whether the update carries at least one field. -/
def hasAnyField (u : WorktreeUpdate) : Bool :=
  u.last_accessed.isSome || u.adopted_at.isSome || u.managed.isSome || u.base_branch.isSome

/-- One row of the `events` table (`src/state/queries.rs::insert_event`
parameters plus generated id and timestamp). -/
structure EventRow where
  id : Int
  repo_id : Int
  worktree_id : Option Int
  event_type : String
  payload : Option String
  created_at : Int
deriving Repr, DecidableEq

/-- The two store tables relevant to event insertion. -/
structure StoreState where
  worktrees : List WorktreeRow
  events : List EventRow
deriving Repr

/-- Modelled from the spec: `Database::insert_event` in
`src/state/queries.rs` is a plain INSERT, and the rejection of an event
whose `worktree_id` does not belong to `repo_id` is enforced by the
schema in `src/state/sql/001_initial_schema.sql`, a file absent from the
snapshot; the guard is modelled from the spec's words ("if both repoId
and worktreeId are given, the worktree actually belongs to that repo,
reject otherwise"), consistent with the in-tree test
`event_rejects_mismatched_repo_worktree`. Returns the resulting store and
the insert outcome; on rejection no event row is written. -/
def insert_event (st : StoreState) (repo_id : Int) (worktree_id : Option Int)
    (event_type : String) (payload : Option String) (now nextId : Int) :
    StoreState × Except String Int :=
  let consistent :=
    match worktree_id with
    | none => true
    | some wid => st.worktrees.any (fun w => w.id == wid && w.repo_id == repo_id)
  if consistent then
    ({ st with
        events := st.events ++
          [{ id := nextId, repo_id := repo_id, worktree_id := worktree_id,
             event_type := event_type, payload := payload, created_at := now }] },
     .ok nextId)
  else
    (st, .error "event references a worktree of another repo")

/-! ## src/state/mod.rs : `Database::open` and forward-compatibility
recovery. The store file is modelled by its recorded schema version, a
flag for a migration failure other than version-ahead, and its payload;
the filesystem is an association list from file name to file. -/

/-- A store file on disk. -/
structure DbFile where
  schemaVersion : Nat
  migrationFails : Bool
  content : List String
deriving Repr, DecidableEq

/-- The build knows a single migration (`migrations()` holds one `M::up`). -/
def latestSchemaVersion : Nat := 1

/-- Store-open errors: `DatabaseTooFarAhead` versus any other migration
failure. -/
inductive StoreError where
  | tooFarAhead
  | migration (msg : String)
deriving Repr, DecidableEq

/-- The empty file `Connection::open` produces at a fresh path. -/
def emptyDbFile : DbFile := { schemaVersion := 0, migrationFails := false, content := [] }

/-- `Database::init`: run migrations to latest.
`rusqlite_migration::to_latest` fails with `DatabaseTooFarAhead` when the
recorded version exceeds the newest known migration, with another error
when a migration itself fails, and otherwise stamps the latest version. -/
def initDb (f : DbFile) : Except StoreError DbFile :=
  if f.schemaVersion > latestSchemaVersion then
    .error .tooFarAhead
  else if f.migrationFails then
    .error (.migration "failed to run database migrations")
  else
    .ok { f with schemaVersion := latestSchemaVersion }

/-- Filesystem: file name to file contents. -/
abbrev Fs := List (String × DbFile)

/-- Write (create or overwrite) a file. -/
def fsSet (fs : Fs) (name : String) (f : DbFile) : Fs :=
  if fs.any (fun p => p.1 == name) then
    fs.map (fun p => if p.1 == name then (name, f) else p)
  else
    fs ++ [(name, f)]

/-- Delete a file. -/
def fsRemove (fs : Fs) (name : String) : Fs :=
  fs.filter (fun p => p.1 != name)

/-- `Database::backup_and_recreate`: rename the existing file to
`<name>.backup-<ts>` alongside it, then open a fresh store at the
original path and initialise it. -/
def backup_and_recreate (fs : Fs) (path : String) (ts : Nat) :
    Except StoreError (Fs × DbFile) :=
  let orig := (fs.lookup path).getD emptyDbFile
  let backupName := path ++ ".backup-" ++ toString ts
  let fs1 := fsSet (fsRemove fs path) backupName orig
  match initDb emptyDbFile with
  | .ok db => .ok (fsSet fs1 path db, db)
  | .error e => .error e

/-- `Database::open`: open (creating if absent) the file at `path`, run
`init`; on `DatabaseTooFarAhead` fall back to `backup_and_recreate`, on
any other failure propagate the error. -/
def Database.openDb (fs : Fs) (path : String) (ts : Nat) :
    Except StoreError (Fs × DbFile) :=
  let f := (fs.lookup path).getD emptyDbFile
  match initDb f with
  | .ok db => .ok (fsSet fs path db, db)
  | .error .tooFarAhead => backup_and_recreate fs path ts
  | .error e => .error e

/-! ## src/git/mod.rs : VCS adapter model

Branches map names to commit oids (naturals); a repository state carries
local branches, remote-tracking refs and worktrees. The environment
supplies what the outside world does: whether an `origin` remote exists,
what a fetch would yield (`none` = the fetch fails), and which target
paths make `git worktree add` fail (e.g. already occupied). -/

/-- `git::GitError` variants. -/
inductive GitError where
  | notAGitRepo (path : String)
  | branchAlreadyExists (branch : String)
  | remoteBranchAlreadyExists (branch remote : String)
  | baseBranchNotFound (base : String)
  | worktreeNotFound (name : String)
  | gitLib (msg : String)
deriving Repr, DecidableEq

/-- Repository state visible to `create_worktree`. -/
structure GitRepoState where
  localBranches : List (String × Nat)
  remoteTracking : List (String × Nat)
  worktrees : List (String × String)
deriving Repr, DecidableEq

/-- External behaviour for one `create_worktree` call. -/
structure GitEnv where
  hasOrigin : Bool
  fetchResult : Option (List (String × Nat))
  occupiedPaths : List String
deriving Repr

/-- The best-effort `fetch` with prune: when `origin` exists and the fetch
succeeds the remote-tracking refs are replaced by the fetched ones; a
fetch failure is swallowed and the stale refs kept. -/
def fetchRefresh (env : GitEnv) (repo : GitRepoState) : GitRepoState :=
  if env.hasOrigin then
    match env.fetchResult with
    | some refs => { repo with remoteTracking := refs }
    | none => repo
  else repo

/-- Resolve the base branch to a commit: local branch first, then the
`origin/<base>` remote-tracking branch. -/
def resolveBase (repo : GitRepoState) (base : String) : Option Nat :=
  match repo.localBranches.lookup base with
  | some oid => some oid
  | none => repo.remoteTracking.lookup ("origin/" ++ base)

/-- Final phase of `git::create_worktree`: create the new branch from the
base commit, attempt the worktree add, and on failure delete the orphaned
branch before returning the error. -/
def createBranchAndWorktree (env : GitEnv) (repo : GitRepoState) (branch : String)
    (baseOid : Nat) (targetPath : String) : GitRepoState × Except GitError Unit :=
  let repo2 := { repo with localBranches := repo.localBranches ++ [(branch, baseOid)] }
  if targetPath ∈ env.occupiedPaths then
    ({ repo2 with localBranches := repo2.localBranches.filter (fun p => p.1 ≠ branch) },
     .error (.gitLib "worktree add failed"))
  else
    ({ repo2 with worktrees := repo2.worktrees ++ [(branch, targetPath)] }, .ok ())

/-- `git::create_worktree` (`src/git/mod.rs`): local-branch conflict
check, best-effort fetch, remote-branch conflict check, base resolution,
then branch + worktree creation with rollback. -/
def create_worktree (env : GitEnv) (repo : GitRepoState) (branch base targetPath : String) :
    GitRepoState × Except GitError Unit :=
  if (repo.localBranches.lookup branch).isSome then
    (repo, .error (.branchAlreadyExists branch))
  else if ((fetchRefresh env repo).remoteTracking.lookup ("origin/" ++ branch)).isSome then
    (fetchRefresh env repo, .error (.remoteBranchAlreadyExists branch "origin"))
  else
    match resolveBase (fetchRefresh env repo) base with
    | some baseOid =>
      createBranchAndWorktree env (fetchRefresh env repo) branch baseOid targetPath
    | none => (fetchRefresh env repo, .error (.baseBranchNotFound base))

/-- Repository state visible to `ahead_behind`: branch targets are
`Option Nat` because a ref can be unborn; `upstreams` records the target
of the configured upstream of a branch when one is configured. -/
structure AbRepo where
  localBranches : List (String × Option Nat)
  remoteBranches : List (String × Option Nat)
  upstreams : List (String × Option Nat)
deriving Repr

/-- `git::ahead_behind` (`src/git/mod.rs`). `graph` abstracts
`graph_ahead_behind` over the commit graph. The reference point is the
configured upstream when present; otherwise the base override as a local
branch, else `origin/<base>`; with no reference point the result is
`Ok(None)`, not an error. -/
def ahead_behind (repo : AbRepo) (graph : Nat → Nat → Nat × Nat) (branch : String)
    (base_branch : Option String) : Except GitError (Option (Nat × Nat)) :=
  match repo.localBranches.lookup branch with
  | none => .ok none
  | some none => .ok none
  | some (some localOid) =>
    let upstreamOid : Option Nat :=
      match repo.upstreams.lookup branch with
      | some t => t
      | none =>
        match base_branch with
        | none => none
        | some base =>
          match (repo.localBranches.lookup base).bind (fun t => t) with
          | some oid => some oid
          | none => (repo.remoteBranches.lookup ("origin/" ++ base)).bind (fun t => t)
    match upstreamOid with
    | some oid => .ok (some (graph localOid oid))
    | none => .ok none

/-! ## src/hooks/run.rs : run step -/

/-- `hooks::run::CommandOutput`. -/
structure CommandOutput where
  command : String
  stdout : String
  stderr : String
  exit_code : Int
deriving Repr, DecidableEq

/-- `hooks::run::RunResult`. -/
structure RunResult where
  executed : List CommandOutput
deriving Repr, DecidableEq

/-- `hooks::run::RunStepError`: the failing command, its exit code, and
the partial results of every command that ran. -/
structure RunStepError where
  command : String
  exit_code : Int
  results : RunResult
deriving Repr, DecidableEq

/-- Run one command under the abstract shell `behavior`, which yields its
captured stdout, stderr and exit code. -/
def runCommand (behavior : String → String × String × Int) (cmd : String) : CommandOutput :=
  { command := cmd,
    stdout := (behavior cmd).1,
    stderr := (behavior cmd).2.1,
    exit_code := (behavior cmd).2.2 }

/-- The command loop of `execute_run_step`: push each output, and return
the error as soon as a command exits non-zero. -/
def runLoop (behavior : String → String × String × Int) (executed : List CommandOutput) :
    List String → Except RunStepError RunResult
  | [] => .ok { executed := executed }
  | cmd :: rest =>
    let o := runCommand behavior cmd
    let executed1 := executed ++ [o]
    if o.exit_code ≠ 0 then
      .error { command := cmd, exit_code := o.exit_code, results := { executed := executed1 } }
    else
      runLoop behavior executed1 rest

/-- `hooks::run::execute_run_step` (`src/hooks/run.rs`). -/
def execute_run_step (behavior : String → String × String × Int) (commands : List String) :
    Except RunStepError RunResult :=
  runLoop behavior [] commands

/-! ## src/hooks/copy.rs : copy step

The source tree is a tree of named entries: regular files, directories,
symbolic links, and other file types (sockets, fifos, ...). Paths are
lists of components. Glob matching is abstracted by a matcher `m` taking
a pattern and a relative path. -/

/-- A filesystem node as seen through `read_dir` entry file types. -/
inductive FsTree where
  | file
  | symlink
  | special
  | dir (entries : List (String × FsTree))
deriving Repr

/-- `hooks::copy::CopiedFile`: `name` is the path relative to the source
root, `source` and `destination` the full paths. -/
structure CopiedFile where
  name : List String
  source : List String
  destination : List String
deriving Repr, DecidableEq

/-- `GlobSet::is_match`: a set matches iff some pattern in it matches. -/
def isMatch (m : String → List String → Bool) (pats : List String) (rel : List String) : Bool :=
  pats.any (fun p => m p rel)

/-- Split raw patterns into the include set and the exclude set: a leading
`'!'` marks an exclusion (and is stripped), anything else is an include.
Both sets are built before any walking happens. -/
def splitPatterns : List String → List String × List String
  | [] => ([], [])
  | p :: rest =>
    let (inc, exc) := splitPatterns rest
    match p.data with
    | '!' :: stripped => (inc, String.mk stripped :: exc)
    | _ => (p :: inc, exc)

/-- `hooks::copy::collect_matching_files`: walk the entries of a
directory whose path relative to the root is `rel`. Symbolic links are
skipped entirely; directories are recursed into; other non-file types are
skipped; a regular file is copied iff its relative path matches the
include set and not the exclude set. -/
def collect_matching_files (m : String → List String → Bool)
    (includes excludes : List String) (sourceDir destDir rel : List String) :
    List (String × FsTree) → List CopiedFile
  | [] => []
  | (nm, t) :: rest =>
    (match t with
     | .symlink => []
     | .special => []
     | .dir es =>
       collect_matching_files m includes excludes sourceDir destDir (rel ++ [nm]) es
     | .file =>
       let r := rel ++ [nm]
       if isMatch m includes r && !(isMatch m excludes r) then
         [{ name := r, source := sourceDir ++ r, destination := destDir ++ r }]
       else []) ++
    collect_matching_files m includes excludes sourceDir destDir rel rest

/-- `hooks::copy::execute_copy_step` (`src/hooks/copy.rs`): build the
include set, then the exclude set, then walk the source tree. The source
root must be a readable directory. -/
def execute_copy_step (m : String → List String → Bool) (sourceDir destDir : List String)
    (patterns : List String) (tree : FsTree) : Except String (List CopiedFile) :=
  match tree with
  | .dir es =>
    .ok (collect_matching_files m (splitPatterns patterns).1 (splitPatterns patterns).2
      sourceDir destDir [] es)
  | _ => .error "failed to read directory"

/-- First directory entry with the given name. -/
def findEntry (es : List (String × FsTree)) (nm : String) : Option FsTree :=
  (es.find? (fun p => p.1 == nm)).map Prod.snd

/-- Spec-side path semantics: `rel` names a regular file reachable from
`t` by descending through directories only — a symbolic link (or any
non-directory) is never descended into. -/
def isRegularFileAt (t : FsTree) : List String → Bool
  | [] =>
    match t with
    | .file => true
    | _ => false
  | nm :: rest =>
    match t with
    | .dir es =>
      match findEntry es nm with
      | some t1 => isRegularFileAt t1 rest
      | none => false
    | _ => false

/-- Entry lists with no duplicate names at any level (real directory
listings). -/
def wfEntries : List (String × FsTree) → Bool
  | [] => true
  | (nm, t) :: rest =>
    (match t with
     | .dir es => wfEntries es
     | _ => true)
    && !(rest.any (fun p => p.1 == nm))
    && wfEntries rest

/-- Adjacent-pair exclusion relation used in the sanitization proofs. -/
def noAdjRel (a : Char) (x y : Char) : Prop := ¬(x = a ∧ y = a)

/-! ### Concrete instances used as inputs below -/

/-- A worktree row of repo 1 whose `removed_at` has been set by the
soft-delete update. -/
def c1RemovedRow : WorktreeRow :=
  { id := 1, repo_id := 1, name := "wt", branch := "b", path := "/wt",
    base_branch := none, managed := true, adopted_at := none,
    last_accessed := none, removed_at := some 100, created_at := 10 }

/-- A live worktree row of repo 1. -/
def c3Row : WorktreeRow :=
  { id := 1, repo_id := 1, name := "feature-auth", branch := "feature/auth",
    path := "/wt/feature-auth", base_branch := some "main", managed := true,
    adopted_at := none, last_accessed := none, removed_at := none, created_at := 5 }

/-- A worktree row that belongs to repo 2. -/
def c8Row : WorktreeRow :=
  { id := 7, repo_id := 2, name := "wt", branch := "b", path := "/b/wt",
    base_branch := none, managed := true, adopted_at := none,
    last_accessed := none, removed_at := none, created_at := 0 }

/-- A shell behaviour where `exit 1` fails with code 1 and every other
command echoes itself and succeeds. -/
def c4Behavior (cmd : String) : String × String × Int :=
  if cmd = "exit 1" then ("", "", 1) else (cmd, "", 0)

/-- A store file recorded at schema version 99 by a future build. -/
def c5AheadFile : DbFile := { schemaVersion := 99, migrationFails := false, content := ["rows"] }

/-- A store file at a known version whose migration fails. -/
def c5BrokenFile : DbFile := { schemaVersion := 0, migrationFails := true, content := [] }

/-- The fresh store produced by migrating an empty file. -/
def freshStore : DbFile :=
  { schemaVersion := latestSchemaVersion, migrationFails := false, content := [] }

/-- Environment for the rollback scenario: no remote, and the target path
is occupied. -/
def c2Env : GitEnv :=
  { hasOrigin := false, fetchResult := none, occupiedPaths := ["/wt/feat"] }

/-- A repository with a single `main` branch. -/
def c2Repo : GitRepoState :=
  { localBranches := [("main", 1)], remoteTracking := [], worktrees := [("main", "/repo")] }

/-- Environment whose fetch would prune every remote-tracking ref. -/
def c6Env : GitEnv :=
  { hasOrigin := true, fetchResult := some [("origin/keep", 9)], occupiedPaths := [] }

/-- A repository where `taken` exists only as a remote-tracking branch. -/
def c6Repo : GitRepoState :=
  { localBranches := [("main", 1)], remoteTracking := [("origin/taken", 2)],
    worktrees := [("main", "/repo")] }

/-- `ahead_behind` witness repo: `feat` has a configured upstream. -/
def c9RepoUpstream : AbRepo :=
  { localBranches := [("feat", some 10)], remoteBranches := [],
    upstreams := [("feat", some 5)] }

/-- `ahead_behind` witness repo: no upstream, base resolves locally. -/
def c9RepoLocalBase : AbRepo :=
  { localBranches := [("feat", some 10), ("main", some 3)], remoteBranches := [],
    upstreams := [] }

/-- `ahead_behind` witness repo: base resolves only on the remote. -/
def c9RepoRemoteBase : AbRepo :=
  { localBranches := [("feat", some 10)], remoteBranches := [("origin/main", some 4)],
    upstreams := [] }

/-- `ahead_behind` witness repo: an orphan branch with no base hint. -/
def c9RepoOrphan : AbRepo :=
  { localBranches := [("feat", some 10)], remoteBranches := [], upstreams := [] }

/-- Concrete commit-graph distance function for witnesses. -/
def c9Graph (a b : Nat) : Nat × Nat := (a, b)

/-- A toy matcher for the copy-step witness: pattern `.env*` matches the
three dot-env file names, any other pattern matches exactly itself. -/
def c7Match (pat : String) (rel : List String) : Bool :=
  match rel with
  | [f] =>
    (pat == ".env*" && (f == ".env" || f == ".env.local" || f == ".env.example")) ||
      pat == f
  | _ => false

/-- Source entries for the copy-step witness, including a symlinked
directory that must never be traversed. -/
def c7Entries : List (String × FsTree) :=
  [(".env", .file), (".env.local", .file), (".env.example", .file),
   ("linked", .symlink)]

/-! ## Theorems -/

lemma sanLoop_slash_not_mem : ∀ (l acc : List Char), '/' ∉ acc → '/' ∉ sanLoop acc l := by
  intro l
  induction l with
  | nil => intro acc hc; simpa [sanLoop] using hc
  | cons c rest ih =>
    intro acc hc
    rw [sanLoop]
    split
    · apply ih
      split
      · exact hc
      · intro hmem
        rcases List.mem_cons.1 hmem with h | h
        · exact absurd h (by decide)
        · exact hc h
    · next hne =>
      apply ih
      intro hmem
      rcases List.mem_cons.1 hmem with h | h
      · exact hne (Or.inl h.symm)
      · exact hc h

lemma sanLoop_chain_dash : ∀ (l acc : List Char),
    List.Chain' (noAdjRel '-') acc → List.Chain' (noAdjRel '-') (sanLoop acc l) := by
  intro l
  induction l with
  | nil => intro acc hacc; simpa [sanLoop] using hacc
  | cons c rest ih =>
    intro acc hacc
    rw [sanLoop]
    split
    · split
      · exact ih acc hacc
      · next hh =>
        apply ih
        refine List.chain'_cons'.2 ⟨?_, hacc⟩
        intro y hy hand
        rw [Option.mem_def] at hy
        exact hh (hand.2 ▸ hy)
    · next hne =>
      apply ih
      refine List.chain'_cons'.2 ⟨?_, hacc⟩
      intro y _ hand
      exact hne (Or.inr (Or.inr (Or.inr hand.1)))

lemma sanLoop_chain_dot : ∀ (l acc : List Char),
    List.Chain' (noAdjRel '.') acc → List.Chain' (noAdjRel '.') l →
    (acc.head? = some '.' → l.head? ≠ some '.') →
    List.Chain' (noAdjRel '.') (sanLoop acc l) := by
  intro l
  induction l with
  | nil => intro acc hacc _ _; simpa [sanLoop] using hacc
  | cons c rest ih =>
    intro acc hacc hl hlink
    rw [sanLoop]
    split
    · next hsp =>
      have hl' : List.Chain' (noAdjRel '.') rest := (List.chain'_cons'.1 hl).2
      split
      · next hh =>
        refine ih acc hacc hl' ?_
        intro hdot
        rw [hh] at hdot
        exact absurd hdot (by decide)
      · refine ih ('-' :: acc) ?_ hl' ?_
        · refine List.chain'_cons'.2 ⟨?_, hacc⟩
          intro y _ hand
          exact absurd hand.1 (by decide)
        · intro hdot
          simp at hdot
    · next hne =>
      refine ih (c :: acc) ?_ (List.chain'_cons'.1 hl).2 ?_
      · refine List.chain'_cons'.2 ⟨?_, hacc⟩
        intro y hy hand
        rw [Option.mem_def] at hy
        refine hlink (hand.2 ▸ hy) ?_
        simp [hand.1]
      · intro hdot hrest
        simp at hdot
        have := (List.chain'_cons'.1 hl).1
        exact this '.' (by rw [Option.mem_def, hrest]) ⟨hdot, rfl⟩

lemma replaceDotDot_head_dot : ∀ l : List Char,
    (replaceDotDot l).head? = some '.' → l.head? = some '.'
  | [] => by simp [replaceDotDot]
  | [c] => by simp [replaceDotDot]
  | c :: d :: rest => by
    rw [replaceDotDot]
    split
    · intro h; exact absurd h (by simp)
    · intro h; simpa using h

lemma replaceDotDot_chain : ∀ l : List Char, List.Chain' (noAdjRel '.') (replaceDotDot l)
  | [] => by simp [replaceDotDot]
  | [c] => by simp [replaceDotDot]
  | c :: d :: rest => by
    rw [replaceDotDot]
    split
    · refine List.chain'_cons'.2 ⟨?_, replaceDotDot_chain rest⟩
      intro y _ hand
      exact absurd hand.1 (by decide)
    · next hne =>
      refine List.chain'_cons'.2 ⟨?_, replaceDotDot_chain (d :: rest)⟩
      intro y hy hand
      rw [Option.mem_def] at hy
      have hd : (d :: rest).head? = some '.' :=
        replaceDotDot_head_dot (d :: rest) (by rw [hy, hand.2])
      simp at hd
      exact hne ⟨hand.1, hd⟩

lemma noAdjPair_eq_true_iff (a : Char) : ∀ l,
    noAdjPair a l = true ↔ List.Chain' (noAdjRel a) l
  | [] => by simp [noAdjPair, List.chain'_nil]
  | [x] => by simp [noAdjPair]
  | x :: y :: rest => by
    rw [noAdjPair, List.chain'_cons, ← noAdjPair_eq_true_iff a (y :: rest)]
    simp only [Bool.and_eq_true, Bool.not_eq_true', Bool.and_eq_false_iff,
      decide_eq_false_iff_not, noAdjRel]
    tauto

lemma dropWhile_isSuffix (p : Char → Bool) : ∀ l : List Char, l.dropWhile p <:+ l
  | [] => List.suffix_refl []
  | c :: rest => by
    rw [List.dropWhile_cons]
    split
    · exact (dropWhile_isSuffix p rest).trans (List.suffix_cons c rest)
    · exact List.suffix_refl _

lemma dropWhile_head_not (p : Char → Bool) : ∀ (l : List Char) (a : Char),
    (l.dropWhile p).head? = some a → p a = false
  | [], a => by simp [List.dropWhile]
  | c :: rest, a => by
    rw [List.dropWhile_cons]
    split
    · exact dropWhile_head_not p rest a
    · next hpc =>
      intro h
      simp at h
      rw [← h]
      exact Bool.eq_false_iff.2 hpc

lemma trimDashes_isInfix (l : List Char) : trimDashes l <:+: l := by
  unfold trimDashes
  have h1 : l.dropWhile (fun c => c = '-') <:+ l := dropWhile_isSuffix _ l
  have h2 : (l.dropWhile (fun c => c = '-')).reverse.dropWhile (fun c => c = '-') <:+
      (l.dropWhile (fun c => c = '-')).reverse := dropWhile_isSuffix _ _
  have h3 := List.reverse_prefix.2 h2
  rw [List.reverse_reverse] at h3
  exact h3.isInfix.trans h1.isInfix

lemma trimDashes_getLast (l : List Char) : (trimDashes l).getLast? ≠ some '-' := by
  unfold trimDashes
  intro h
  rw [List.getLast?_reverse] at h
  have := dropWhile_head_not (fun c => c = '-') _ _ h
  simp at this

lemma trimDashes_head (l : List Char) : (trimDashes l).head? ≠ some '-' := by
  unfold trimDashes
  intro h
  rw [List.head?_reverse] at h
  set X := (l.dropWhile (fun c => c = '-')).reverse with hX
  have hsuf : X.dropWhile (fun c => c = '-') <:+ X := dropWhile_isSuffix _ X
  obtain ⟨t, ht⟩ := hsuf
  have hne : X.dropWhile (fun c => c = '-') ≠ [] := by
    intro hnil
    rw [hnil, List.getLast?_nil] at h
    exact Option.noConfusion h
  have hlast : X.getLast? = some '-' := by
    rw [← ht, List.getLast?_append_of_ne_nil t hne]
    exact h
  rw [hX, List.getLast?_reverse] at hlast
  have := dropWhile_head_not (fun c => c = '-') l '-' hlast
  simp at this

/-- C10: for every input string, the output of `sanitize_branch` contains
no `'/'` character, no `".."` substring, and no two consecutive `'-'`
characters, and it neither starts nor ends with `'-'` — so the sanitized
worktree directory name can never contain a path separator or a
parent-directory traversal component. -/
theorem sanitize_branch_safe (s : String) :
    ((sanitize_branch s).data.contains '/') = false ∧
    noAdjPair '.' (sanitize_branch s).data = true ∧
    noAdjPair '-' (sanitize_branch s).data = true ∧
    ((sanitize_branch s).data.head? == some '-') = false ∧
    ((sanitize_branch s).data.getLast? == some '-') = false := by
  have hdata : (sanitize_branch s).data = sanitizeChars s.data := rfl
  have htrim : sanitizeChars s.data <:+: (sanLoop [] (replaceDotDot s.data)).reverse :=
    trimDashes_isInfix _
  refine ⟨?_, ?_, ?_, ?_, ?_⟩
  · rw [hdata]
    have hmem : '/' ∉ sanLoop [] (replaceDotDot s.data) :=
      sanLoop_slash_not_mem _ [] (by simp)
    have : '/' ∉ sanitizeChars s.data := by
      intro hin
      exact hmem (List.mem_reverse.1 (htrim.subset hin))
    rw [List.contains_eq_any_beq, List.any_eq_false]
    intro x hx
    simp only [beq_iff_eq]
    intro he
    exact this (by rwa [← he] at hx)
  · rw [hdata, noAdjPair_eq_true_iff]
    have hrev : List.Chain' (noAdjRel '.') (sanLoop [] (replaceDotDot s.data)).reverse := by
      rw [List.chain'_reverse]
      refine List.Chain'.imp ?_ (sanLoop_chain_dot (replaceDotDot s.data) []
        List.chain'_nil (replaceDotDot_chain s.data) (by simp))
      intro a b hab hba
      exact hab ⟨hba.2, hba.1⟩
    exact hrev.infix htrim
  · rw [hdata, noAdjPair_eq_true_iff]
    have hrev : List.Chain' (noAdjRel '-') (sanLoop [] (replaceDotDot s.data)).reverse := by
      rw [List.chain'_reverse]
      refine List.Chain'.imp ?_ (sanLoop_chain_dash (replaceDotDot s.data) [] List.chain'_nil)
      intro a b hab hba
      exact hab ⟨hba.2, hba.1⟩
    exact hrev.infix htrim
  · rw [hdata]
    have := trimDashes_head (sanLoop [] (replaceDotDot s.data)).reverse
    simpa [sanitizeChars, beq_iff_eq] using this
  · rw [hdata]
    have := trimDashes_getLast (sanLoop [] (replaceDotDot s.data)).reverse
    simpa [sanitizeChars, beq_iff_eq] using this

example : sanitize_branch "feature/auth" = "feature-auth" := by decide
example : sanitize_branch "a..b" = "a-b" := by decide
example : sanitize_branch "..." = "." := by decide
example : sanitize_branch "feature/..secret/auth" = "feature-secret-auth" := by decide
example : sanitize_branch "/leading" = "leading" := by decide
example : sanitize_branch "trailing/" = "trailing" := by decide
example : sanitize_branch "a--b" = "a-b" := by decide
example : sanitize_branch "v2.1.3" = "v2.1.3" := by decide

/-- C1: evaluation of `Database::list_worktrees` at the failing input.
The SQL selects every row of the repo with no `removed_at` filter, so a
worktree whose `removed_at` has been set is still returned — the code
contradicts the claim (and its own test `remove_happy_path_end_to_end`,
which asserts the removed worktree no longer appears). -/
theorem list_worktrees_returns_soft_deleted_row :
    list_worktrees [c1RemovedRow] 1 = [c1RemovedRow] ∧
    c1RemovedRow.removed_at = some 100 := ⟨rfl, rfl⟩

lemma setsOf_foldl (u : WorktreeUpdate) (w : WorktreeRow) :
    (setsOf u).foldl (fun w f => f w) w = specApplyUpdate u w := by
  obtain ⟨la, aa, mg, bb⟩ := u
  rcases la with _ | (_ | la) <;> rcases aa with _ | (_ | aa) <;>
    rcases mg with _ | mg <;> rcases bb with _ | (_ | bb) <;> rfl

lemma hasAnyField_false_iff (u : WorktreeUpdate) :
    hasAnyField u = false ↔ setsOf u = [] := by
  obtain ⟨la, aa, mg, bb⟩ := u
  rcases la with _ | la <;> rcases aa with _ | aa <;> rcases mg with _ | mg <;>
    rcases bb with _ | bb <;> simp [hasAnyField, setsOf]

/-- C3 counterexample: the claim requires a not-found failure for every
nonexistent id, "including when the update specifies no fields at all",
but `update_worktree` returns `Ok` for an empty update before ever
checking the id — here id 999 on an empty table. -/
theorem update_worktree_empty_update_missing_id_ok :
    update_worktree ([] : List WorktreeRow) 999 {} = Except.ok [] := rfl

/-- C3 (amended): `update_worktree` distinguishes, per nullable field,
"leave unchanged" / "set to NULL" / "set to value" (captured by
`specApplyUpdate`); when at least one field is present and no row with
the id exists it fails with the not-found error; an update with no fields
at all returns success without touching the table — even when the id does
not exist. -/
theorem update_worktree_spec (table : List WorktreeRow) (id : Int) (u : WorktreeUpdate) :
    (hasAnyField u = false → update_worktree table id u = .ok table) ∧
    (hasAnyField u = true → (∀ w ∈ table, w.id ≠ id) →
      update_worktree table id u = .error "worktree not found") ∧
    (hasAnyField u = true → (∃ w ∈ table, w.id = id) →
      update_worktree table id u =
        .ok (table.map (fun w => if w.id = id then specApplyUpdate u w else w))) := by
  refine ⟨?_, ?_, ?_⟩
  · intro h
    have hsets := (hasAnyField_false_iff u).1 h
    simp [update_worktree, hsets]
  · intro h hnone
    have hsets : ¬(setsOf u).isEmpty = true := by
      intro he
      rw [List.isEmpty_iff] at he
      rw [← hasAnyField_false_iff u] at he
      rw [h] at he
      exact Bool.noConfusion he
    have hfil : table.filter (fun w => w.id == id) = [] := by
      rw [List.filter_eq_nil_iff]
      intro w hw
      simp only [beq_iff_eq]
      exact hnone w hw
    simp [update_worktree, hsets, hfil]
  · intro h hex
    have hsets : ¬(setsOf u).isEmpty = true := by
      intro he
      rw [List.isEmpty_iff] at he
      rw [← hasAnyField_false_iff u] at he
      rw [h] at he
      exact Bool.noConfusion he
    obtain ⟨w0, hw0, hid0⟩ := hex
    have hfil : (table.filter (fun w => w.id == id)).length ≠ 0 := by
      intro hlen
      rw [List.length_eq_zero, List.filter_eq_nil_iff] at hlen
      exact hlen w0 hw0 (by simp [beq_iff_eq, hid0])
    simp only [update_worktree, if_neg hsets, if_neg hfil]
    congr 1
    apply List.map_congr_left
    intro w _
    by_cases hw : w.id = id
    · simp [hw, setsOf_foldl]
    · simp [hw]

/-- Witness for the amended C3 theorem at concrete inputs: setting
`base_branch` to NULL on an existing row succeeds and nulls the column,
a one-field update on a missing id fails, and an empty update on a
missing id succeeds. -/
theorem update_worktree_spec_witness :
    update_worktree [c3Row] 1 { base_branch := some none } =
      .ok [{ c3Row with base_branch := none }] ∧
    update_worktree [c3Row] 2 { managed := some false } = .error "worktree not found" ∧
    update_worktree [c3Row] 5 {} = .ok [c3Row] := by
  refine ⟨?_, ?_, ?_⟩
  · have h := (update_worktree_spec [c3Row] 1 { base_branch := some none }).2.2 rfl
      ⟨c3Row, by simp, by decide⟩
    rw [h]
    rfl
  · exact (update_worktree_spec [c3Row] 2 { managed := some false }).2.1 rfl
      (by intro w hw; simp at hw; subst hw; decide)
  · exact (update_worktree_spec [c3Row] 5 {}).1 rfl

/-- C8: `insert_event` rejects an event whose `worktree_id` does not
belong to the given `repo_id` (beyond mere existence of both ids): the
insert fails and the store — in particular the events table — is
unchanged. -/
theorem insert_event_rejects_cross_repo (st : StoreState) (repo_id wid : Int)
    (event_type : String) (payload : Option String) (now nextId : Int)
    (h : ∀ w ∈ st.worktrees, w.id = wid → w.repo_id ≠ repo_id) :
    (insert_event st repo_id (some wid) event_type payload now nextId).1 = st ∧
    (insert_event st repo_id (some wid) event_type payload now nextId).2 =
      .error "event references a worktree of another repo" := by
  have hcons : (st.worktrees.any (fun w => w.id == wid && w.repo_id == repo_id)) = false := by
    rw [List.any_eq_false]
    intro w hw
    simp only [Bool.and_eq_true, beq_iff_eq, not_and]
    exact h w hw
  constructor <;> simp [insert_event, hcons]

/-- Witness for C8: the worktree with id 7 belongs to repo 2, both repo 1
and worktree 7 exist, yet an event pairing repo 1 with worktree 7 is
rejected and no event row is written. -/
theorem insert_event_rejects_cross_repo_witness :
    (insert_event ⟨[c8Row], []⟩ 1 (some 7) "sync" none 0 1).1 = ⟨[c8Row], []⟩ ∧
    (insert_event ⟨[c8Row], []⟩ 1 (some 7) "sync" none 0 1).2 =
      .error "event references a worktree of another repo" :=
  insert_event_rejects_cross_repo ⟨[c8Row], []⟩ 1 7 "sync" none 0 1
    (by intro w hw; simp at hw; subst hw; decide)

lemma lookup_cons_hit (k q : String) (v : DbFile) (rest : Fs) (h : q = k) :
    List.lookup q ((k, v) :: rest) = some v := by
  subst h
  rw [List.lookup, beq_self_eq_true]

lemma lookup_cons_miss (k q : String) (v : DbFile) (rest : Fs) (h : q ≠ k) :
    List.lookup q ((k, v) :: rest) = List.lookup q rest := by
  rw [List.lookup, beq_eq_false_iff_ne.2 h]

lemma lookup_map_set (name : String) (f : DbFile) : ∀ fs : Fs,
    fs.any (fun p => p.1 == name) = true →
    (fs.map (fun p => if p.1 == name then (name, f) else p)).lookup name = some f := by
  intro fs
  induction fs with
  | nil => simp
  | cons p rest ih =>
    obtain ⟨k, v⟩ := p
    intro hany
    rw [List.map_cons]
    by_cases hp : k = name
    · rw [if_pos (beq_iff_eq.mpr hp)]
      exact lookup_cons_hit name name f _ rfl
    · rw [if_neg (fun hc => hp (beq_iff_eq.mp hc))]
      have hr : rest.any (fun p => p.1 == name) = true := by
        rw [List.any_cons] at hany
        rcases Bool.or_eq_true_iff.1 hany with h | h
        · exact absurd (beq_iff_eq.mp h) hp
        · exact h
      rw [lookup_cons_miss k name v _ (fun hc => hp hc.symm)]
      exact ih hr

lemma lookup_map_set_other (name q : String) (f : DbFile) (hq : q ≠ name) : ∀ fs : Fs,
    (fs.map (fun p => if p.1 == name then (name, f) else p)).lookup q = fs.lookup q := by
  intro fs
  induction fs with
  | nil => simp
  | cons p rest ih =>
    obtain ⟨k, v⟩ := p
    rw [List.map_cons]
    by_cases hp : k = name
    · rw [if_pos (beq_iff_eq.mpr hp)]
      rw [lookup_cons_miss name q f _ hq, lookup_cons_miss k q v _ (hp ▸ hq), ih]
    · rw [if_neg (fun hc => hp (beq_iff_eq.mp hc))]
      by_cases hkq : q = k
      · rw [lookup_cons_hit k q v _ hkq, lookup_cons_hit k q v _ hkq]
      · rw [lookup_cons_miss k q v _ hkq, lookup_cons_miss k q v _ hkq, ih]

lemma lookup_append_last (name : String) (f : DbFile) : ∀ fs : Fs,
    fs.any (fun p => p.1 == name) = false →
    (fs ++ [(name, f)]).lookup name = some f := by
  intro fs
  induction fs with
  | nil =>
    intro _
    exact lookup_cons_hit name name f [] rfl
  | cons p rest ih =>
    obtain ⟨k, v⟩ := p
    intro hany
    rw [List.any_cons, Bool.or_eq_false_iff] at hany
    rw [List.cons_append,
      lookup_cons_miss k name v _ (fun hc => by simp [hc] at hany)]
    exact ih hany.2

lemma lookup_append_last_other (name q : String) (f : DbFile) (hq : q ≠ name) : ∀ fs : Fs,
    (fs ++ [(name, f)]).lookup q = fs.lookup q := by
  intro fs
  induction fs with
  | nil => rw [List.nil_append, lookup_cons_miss name q f [] hq]
  | cons p rest ih =>
    obtain ⟨k, v⟩ := p
    rw [List.cons_append]
    by_cases hkq : q = k
    · rw [lookup_cons_hit k q v _ hkq, lookup_cons_hit k q v _ hkq]
    · rw [lookup_cons_miss k q v _ hkq, lookup_cons_miss k q v _ hkq, ih]

lemma lookup_fsSet_self (fs : Fs) (name : String) (f : DbFile) :
    (fsSet fs name f).lookup name = some f := by
  unfold fsSet
  split
  · next hany => exact lookup_map_set name f fs hany
  · next hany => exact lookup_append_last name f fs (Bool.eq_false_iff.2 hany)

lemma lookup_fsSet_other (fs : Fs) (name q : String) (f : DbFile) (hq : q ≠ name) :
    (fsSet fs name f).lookup q = fs.lookup q := by
  unfold fsSet
  split
  · exact lookup_map_set_other name q f hq fs
  · exact lookup_append_last_other name q f hq fs

lemma lookup_fsRemove_other (fs : Fs) (name q : String) (hq : q ≠ name) :
    (fsRemove fs name).lookup q = fs.lookup q := by
  unfold fsRemove
  induction fs with
  | nil => simp
  | cons p rest ih =>
    obtain ⟨k, v⟩ := p
    rw [List.filter_cons]
    by_cases hp : k = name
    · rw [if_neg (by simp [hp])]
      rw [lookup_cons_miss k q v _ (hp ▸ hq), ih]
    · rw [if_pos (by simp [hp])]
      by_cases hkq : q = k
      · rw [lookup_cons_hit k q v _ hkq, lookup_cons_hit k q v _ hkq]
      · rw [lookup_cons_miss k q v _ hkq, lookup_cons_miss k q v _ hkq, ih]

lemma backupName_ne (path : String) (ts : Nat) :
    path ≠ path ++ ".backup-" ++ toString ts := by
  intro h
  have hlen := congrArg String.length h
  rw [String.length_append, String.length_append] at hlen
  have h8 : ".backup-".length = 8 := by decide
  omega

/-- C5: opening a store whose recorded schema version is newer than the
latest migration this build knows renames the file to a timestamped
backup alongside it and produces a fresh, usable empty store at the
original path, leaving every other file untouched (exactly one backup of
the original); any other migration failure propagates as a hard error
instead of triggering backup-and-recreate. -/
theorem openDb_recovery_spec (fs : Fs) (path : String) (ts : Nat) (f : DbFile)
    (hf : fs.lookup path = some f) :
    (f.schemaVersion > latestSchemaVersion →
      fs.lookup (path ++ ".backup-" ++ toString ts) = none →
      ∃ fs1, Database.openDb fs path ts = .ok (fs1, freshStore) ∧
        fs1.lookup path = some freshStore ∧
        fs1.lookup (path ++ ".backup-" ++ toString ts) = some f ∧
        ∀ q, q ≠ path → q ≠ path ++ ".backup-" ++ toString ts →
          fs1.lookup q = fs.lookup q) ∧
    (¬f.schemaVersion > latestSchemaVersion → f.migrationFails = true →
      Database.openDb fs path ts =
        .error (.migration "failed to run database migrations")) := by
  constructor
  · intro hver hnob
    set backupName := path ++ ".backup-" ++ toString ts with hbn
    have hne : path ≠ backupName := backupName_ne path ts
    have hinit : initDb f = .error .tooFarAhead := by
      unfold initDb
      rw [if_pos hver]
    refine ⟨fsSet (fsSet (fsRemove fs path) backupName f) path freshStore, ?_, ?_, ?_, ?_⟩
    · unfold Database.openDb
      rw [hf]
      simp only [Option.getD_some, hinit]
      unfold backup_and_recreate
      rw [hf]
      rfl
    · exact lookup_fsSet_self _ path freshStore
    · rw [lookup_fsSet_other _ path backupName freshStore (Ne.symm hne)]
      exact lookup_fsSet_self _ backupName f
    · intro q hqp hqb
      rw [lookup_fsSet_other _ path q freshStore hqp,
        lookup_fsSet_other _ backupName q f hqb,
        lookup_fsRemove_other fs path q hqp]
  · intro hver hfail
    have hinit : initDb f = .error (.migration "failed to run database migrations") := by
      unfold initDb
      rw [if_neg hver, if_pos hfail]
    unfold Database.openDb
    rw [hf]
    simp only [Option.getD_some, hinit]

/-- Witness for C5 at concrete inputs: a file at version 99 is backed up
and replaced by a fresh store, a neighbouring file is untouched; a file
whose migration fails propagates the hard error. -/
theorem openDb_recovery_spec_witness :
    (∃ fs1, Database.openDb [("db", c5AheadFile), ("other", c5BrokenFile)] "db" 42 =
        .ok (fs1, freshStore) ∧
      fs1.lookup "db" = some freshStore ∧
      fs1.lookup "db.backup-42" = some c5AheadFile ∧
      fs1.lookup "other" = [("db", c5AheadFile), ("other", c5BrokenFile)].lookup "other") ∧
    Database.openDb [("db", c5BrokenFile)] "db" 42 =
      .error (.migration "failed to run database migrations") := by
  constructor
  · obtain ⟨fs1, h1, h2, h3, h4⟩ :=
      (openDb_recovery_spec [("db", c5AheadFile), ("other", c5BrokenFile)] "db" 42
        c5AheadFile rfl).1 (by decide) rfl
    have hb : "db" ++ ".backup-" ++ toString 42 = "db.backup-42" := rfl
    refine ⟨fs1, h1, h2, ?_, ?_⟩
    · rw [← hb]; exact h3
    · exact h4 "other" (by decide) (by rw [← hb] at *; decide)
  · exact (openDb_recovery_spec [("db", c5BrokenFile)] "db" 42 c5BrokenFile rfl).2
      (by decide) rfl

lemma fetchRefresh_localBranches (env : GitEnv) (repo : GitRepoState) :
    (fetchRefresh env repo).localBranches = repo.localBranches := by
  unfold fetchRefresh
  split
  · cases env.fetchResult <;> rfl
  · rfl

lemma fetchRefresh_worktrees (env : GitEnv) (repo : GitRepoState) :
    (fetchRefresh env repo).worktrees = repo.worktrees := by
  unfold fetchRefresh
  split
  · cases env.fetchResult <;> rfl
  · rfl

lemma filter_ne_of_lookup_none (branch : String) : ∀ l : List (String × Nat),
    l.lookup branch = none → l.filter (fun p => p.1 ≠ branch) = l := by
  intro l
  induction l with
  | nil => intro _; rfl
  | cons p rest ih =>
    obtain ⟨k, v⟩ := p
    intro h
    rw [List.lookup] at h
    by_cases hk : branch = k
    · rw [beq_iff_eq.mpr hk] at h
      simp at h
    · rw [beq_eq_false_iff_ne.2 hk] at h
      have hk2 : decide (k ≠ branch) = true := by
        simp only [decide_eq_true_eq, ne_eq]
        exact fun hc => hk hc.symm
      rw [List.filter_cons, if_pos hk2]
      rw [ih h]

/-- C2: when `create_worktree` has created the new local branch and the
worktree-add step then fails (target path occupied), the orphaned branch
is deleted before the error is returned: the call errors, the branch does
not exist afterwards, and local branches and worktrees are exactly as
before the call. -/
theorem create_worktree_rollback (env : GitEnv) (repo : GitRepoState)
    (branch base targetPath : String)
    (h1 : repo.localBranches.lookup branch = none)
    (h2 : (fetchRefresh env repo).remoteTracking.lookup ("origin/" ++ branch) = none)
    (h3 : (resolveBase (fetchRefresh env repo) base).isSome = true)
    (h4 : targetPath ∈ env.occupiedPaths) :
    (create_worktree env repo branch base targetPath).2 =
      .error (.gitLib "worktree add failed") ∧
    (create_worktree env repo branch base targetPath).1.localBranches =
      repo.localBranches ∧
    (create_worktree env repo branch base targetPath).1.worktrees = repo.worktrees ∧
    (create_worktree env repo branch base targetPath).1.localBranches.lookup branch =
      none := by
  obtain ⟨oid, hoid⟩ := Option.isSome_iff_exists.1 h3
  have hcw : create_worktree env repo branch base targetPath =
      createBranchAndWorktree env (fetchRefresh env repo) branch oid targetPath := by
    unfold create_worktree
    rw [h1, h2]
    simp only [Option.isSome_none, Bool.false_eq_true, if_false, hoid]
  have hlb : (fetchRefresh env repo).localBranches.filter (fun p => p.1 ≠ branch) =
      (fetchRefresh env repo).localBranches := by
    apply filter_ne_of_lookup_none
    rw [fetchRefresh_localBranches]
    exact h1
  have hfin : createBranchAndWorktree env (fetchRefresh env repo) branch oid targetPath =
      ({ fetchRefresh env repo with
          localBranches := (fetchRefresh env repo).localBranches },
        .error (.gitLib "worktree add failed")) := by
    unfold createBranchAndWorktree
    rw [if_pos h4]
    rw [List.filter_append, hlb, List.filter_cons]
    rw [if_neg (by simp), List.filter_nil, List.append_nil]
  rw [hcw, hfin]
  refine ⟨rfl, ?_, ?_, ?_⟩
  · exact fetchRefresh_localBranches env repo
  · exact fetchRefresh_worktrees env repo
  · rw [show ({ fetchRefresh env repo with
        localBranches := (fetchRefresh env repo).localBranches } : GitRepoState) =
        fetchRefresh env repo from rfl]
    rw [fetchRefresh_localBranches]
    exact h1

/-- Witness for C2: creating `feat` from `main` at an occupied target
errors and leaves the repo exactly as it was, with no `feat` branch. -/
theorem create_worktree_rollback_witness :
    (create_worktree c2Env c2Repo "feat" "main" "/wt/feat").2 =
      .error (.gitLib "worktree add failed") ∧
    (create_worktree c2Env c2Repo "feat" "main" "/wt/feat").1.localBranches =
      c2Repo.localBranches ∧
    (create_worktree c2Env c2Repo "feat" "main" "/wt/feat").1.worktrees =
      c2Repo.worktrees ∧
    (create_worktree c2Env c2Repo "feat" "main" "/wt/feat").1.localBranches.lookup
      "feat" = none :=
  create_worktree_rollback c2Env c2Repo "feat" "main" "/wt/feat" rfl rfl rfl
    (by decide)

/-- C6: a branch name colliding with a local branch is rejected with
`BranchAlreadyExists` before the fetch or any mutation (the returned
state is the input state, whatever a fetch would have done); a branch
colliding only as `origin/<branch>` is rejected with
`RemoteBranchAlreadyExists` after the best-effort fetch-with-prune
refresh, which changes nothing but the remote-tracking refs; a failed
fetch is swallowed, leaving the cached refs. -/
theorem create_worktree_conflict_precedence (env : GitEnv) (repo : GitRepoState)
    (branch base targetPath : String) :
    ((repo.localBranches.lookup branch).isSome = true →
      create_worktree env repo branch base targetPath =
        (repo, .error (.branchAlreadyExists branch))) ∧
    (repo.localBranches.lookup branch = none →
      ((fetchRefresh env repo).remoteTracking.lookup ("origin/" ++ branch)).isSome =
        true →
      create_worktree env repo branch base targetPath =
        (fetchRefresh env repo, .error (.remoteBranchAlreadyExists branch "origin"))) ∧
    (fetchRefresh env repo).localBranches = repo.localBranches ∧
    (fetchRefresh env repo).worktrees = repo.worktrees ∧
    (env.fetchResult = none → fetchRefresh env repo = repo) := by
  refine ⟨?_, ?_, fetchRefresh_localBranches env repo, fetchRefresh_worktrees env repo, ?_⟩
  · intro h
    unfold create_worktree
    rw [if_pos h]
  · intro h1 h2
    unfold create_worktree
    rw [h1]
    simp only [Option.isSome_none, Bool.false_eq_true, if_false]
    rw [if_pos h2]
  · intro h
    unfold fetchRefresh
    rw [h]
    split <;> rfl

/-- Witness for C6: with a local `feat` branch the call rejects before
the fetch (the pruning fetch of `c6Env` is not applied); with `taken`
only on `origin/` the call rejects after the refresh. -/
theorem create_worktree_conflict_precedence_witness :
    create_worktree c6Env
        { c6Repo with localBranches := [("feat", 3), ("main", 1)] }
        "feat" "main" "/wt/feat" =
      ({ c6Repo with localBranches := [("feat", 3), ("main", 1)] },
        .error (.branchAlreadyExists "feat")) ∧
    create_worktree { c6Env with fetchResult := some [("origin/taken", 2)] } c6Repo
        "taken" "main" "/wt/taken" =
      (fetchRefresh { c6Env with fetchResult := some [("origin/taken", 2)] } c6Repo,
        .error (.remoteBranchAlreadyExists "taken" "origin")) := by
  constructor
  · exact (create_worktree_conflict_precedence c6Env
      { c6Repo with localBranches := [("feat", 3), ("main", 1)] }
      "feat" "main" "/wt/feat").1 rfl
  · exact (create_worktree_conflict_precedence
      { c6Env with fetchResult := some [("origin/taken", 2)] } c6Repo
      "taken" "main" "/wt/taken").2.1 rfl rfl

lemma runLoop_fail (behavior : String → String × String × Int) :
    ∀ (pre : List String) (acc : List CommandOutput) (c : String) (post : List String),
    (∀ p ∈ pre, (runCommand behavior p).exit_code = 0) →
    (runCommand behavior c).exit_code ≠ 0 →
    runLoop behavior acc (pre ++ c :: post) =
      .error { command := c, exit_code := (runCommand behavior c).exit_code,
               results := { executed := acc ++ (pre ++ [c]).map (runCommand behavior) } } := by
  intro pre
  induction pre with
  | nil =>
    intro acc c post _ hc
    rw [List.nil_append, runLoop]
    rw [if_pos hc]
    rfl
  | cons p rest ih =>
    intro acc c post hpre hc
    rw [List.cons_append, runLoop]
    rw [if_neg (by simpa using hpre p (by simp))]
    rw [ih (acc ++ [runCommand behavior p]) c post
      (fun q hq => hpre q (List.mem_cons_of_mem p hq)) hc]
    simp [List.append_assoc]

/-- C4: commands run strictly sequentially and execution stops at the
first command whose exit code is non-zero: no later command runs, the
error carries that command string and its exit code, and the partial
results are exactly the outputs of the commands that ran, in order,
including the failing one — whatever commands follow. -/
theorem execute_run_step_fail_fast (behavior : String → String × String × Int)
    (pre : List String) (c : String) (post : List String)
    (hpre : ∀ p ∈ pre, (runCommand behavior p).exit_code = 0)
    (hc : (runCommand behavior c).exit_code ≠ 0) :
    execute_run_step behavior (pre ++ c :: post) =
      .error { command := c, exit_code := (runCommand behavior c).exit_code,
               results := { executed := (pre ++ [c]).map (runCommand behavior) } } := by
  unfold execute_run_step
  rw [runLoop_fail behavior pre [] c post hpre hc]
  simp

/-- Witness for C4 at the spec's example: with commands
`["echo a", "exit 1", "echo b"]` the error reports `exit 1` with code 1,
partial results hold exactly two entries, and `echo b` never ran. -/
theorem execute_run_step_fail_fast_witness :
    execute_run_step c4Behavior ["echo a", "exit 1", "echo b"] =
      .error { command := "exit 1", exit_code := 1,
               results := { executed :=
                 [{ command := "echo a", stdout := "echo a", stderr := "", exit_code := 0 },
                  { command := "exit 1", stdout := "", stderr := "", exit_code := 1 }] } } ∧
    ([{ command := "echo a", stdout := "echo a", stderr := "", exit_code := (0 : Int) },
      { command := "exit 1", stdout := "", stderr := "", exit_code := 1 }] :
        List CommandOutput).length = 2 := by
  constructor
  · exact execute_run_step_fail_fast c4Behavior ["echo a"] "exit 1" ["echo b"]
      (by intro p hp; simp at hp; subst hp; decide) (by decide)
  · rfl

/-- C9: `ahead_behind` resolves the reference point in priority order —
the branch's configured upstream first, else the base override as a local
branch, else `origin/<override>` — and returns the graph counts against
the first one found; when none can be established the result is
`Ok(None)`, a valid non-error outcome. -/
theorem ahead_behind_spec (repo : AbRepo) (graph : Nat → Nat → Nat × Nat)
    (branch : String) (base_branch : Option String) (localOid : Nat)
    (hb : repo.localBranches.lookup branch = some (some localOid)) :
    (∀ t, repo.upstreams.lookup branch = some t →
      ahead_behind repo graph branch base_branch =
        .ok (t.map (fun u => graph localOid u))) ∧
    (repo.upstreams.lookup branch = none → ∀ b, base_branch = some b →
      ((∀ t, (repo.localBranches.lookup b).bind (fun x => x) = some t →
        ahead_behind repo graph branch base_branch = .ok (some (graph localOid t))) ∧
       ((repo.localBranches.lookup b).bind (fun x => x) = none →
        ((∀ t, (repo.remoteBranches.lookup ("origin/" ++ b)).bind (fun x => x) = some t →
          ahead_behind repo graph branch base_branch = .ok (some (graph localOid t))) ∧
         ((repo.remoteBranches.lookup ("origin/" ++ b)).bind (fun x => x) = none →
          ahead_behind repo graph branch base_branch = .ok none))))) ∧
    (repo.upstreams.lookup branch = none → base_branch = none →
      ahead_behind repo graph branch base_branch = .ok none) := by
  refine ⟨?_, ?_, ?_⟩
  · intro t ht
    unfold ahead_behind
    simp only [hb, ht]
    cases t <;> rfl
  · intro hup b hbase
    subst hbase
    refine ⟨?_, fun hl => ⟨?_, ?_⟩⟩
    · intro t ht
      unfold ahead_behind
      simp only [hb, hup, ht]
    · intro t ht
      unfold ahead_behind
      simp only [hb, hup, hl, ht]
    · intro hr
      unfold ahead_behind
      simp only [hb, hup, hl, hr]
  · intro hup hbase
    subst hbase
    unfold ahead_behind
    simp only [hb, hup]

/-- Witness for C9: the four resolution outcomes at concrete
repositories — configured upstream, base as local branch, base only as
`origin/` remote, and an orphan with no base hint (a valid `Ok none`). -/
theorem ahead_behind_spec_witness :
    ahead_behind c9RepoUpstream c9Graph "feat" (some "main") = .ok (some (10, 5)) ∧
    ahead_behind c9RepoLocalBase c9Graph "feat" (some "main") = .ok (some (10, 3)) ∧
    ahead_behind c9RepoRemoteBase c9Graph "feat" (some "main") = .ok (some (10, 4)) ∧
    ahead_behind c9RepoOrphan c9Graph "feat" none = .ok none := by
  refine ⟨?_, ?_, ?_, ?_⟩
  · exact (ahead_behind_spec c9RepoUpstream c9Graph "feat" (some "main") 10 rfl).1
      (some 5) rfl
  · exact ((ahead_behind_spec c9RepoLocalBase c9Graph "feat" (some "main") 10 rfl).2.1
      rfl "main" rfl).1 3 rfl
  · exact (((ahead_behind_spec c9RepoRemoteBase c9Graph "feat" (some "main") 10 rfl).2.1
      rfl "main" rfl).2 rfl).1 4 rfl
  · exact (ahead_behind_spec c9RepoOrphan c9Graph "feat" none 10 rfl).2.2 rfl rfl

lemma isRegularFileAt_symlink (r : List String) : isRegularFileAt .symlink r = false := by
  cases r <;> rfl

lemma isRegularFileAt_special (r : List String) : isRegularFileAt .special r = false := by
  cases r <;> rfl

lemma findEntry_cons_self (nm : String) (t : FsTree) (rest : List (String × FsTree)) :
    findEntry ((nm, t) :: rest) nm = some t := by
  rw [findEntry, List.find?_cons_of_pos _ (by simp)]
  rfl

lemma findEntry_cons_ne (nm c : String) (t : FsTree) (rest : List (String × FsTree))
    (h : nm ≠ c) :
    findEntry ((nm, t) :: rest) c = findEntry rest c := by
  rw [findEntry, List.find?_cons_of_neg _ (by simp [h]), findEntry]

lemma findEntry_not_found (es : List (String × FsTree)) (c : String)
    (h : es.any (fun p => p.1 == c) = false) :
    findEntry es c = none := by
  rw [findEntry, List.find?_eq_none.mpr, Option.map_none']
  intro x hx
  have := List.any_eq_false.mp h x hx
  simpa using this

lemma isRegularFileAt_dir_cons_self (nm : String) (t : FsTree)
    (rest : List (String × FsTree)) (r1 : List String) :
    isRegularFileAt (.dir ((nm, t) :: rest)) (nm :: r1) = isRegularFileAt t r1 := by
  simp only [isRegularFileAt, findEntry_cons_self]

lemma isRegularFileAt_dir_cons_ne (nm c : String) (t : FsTree)
    (rest : List (String × FsTree)) (r1 : List String) (h : c ≠ nm) :
    isRegularFileAt (.dir ((nm, t) :: rest)) (c :: r1) =
      isRegularFileAt (.dir rest) (c :: r1) := by
  simp only [isRegularFileAt, findEntry_cons_ne nm c t rest (fun hx => h hx.symm)]

lemma isRegularFileAt_dir_not_found (es : List (String × FsTree)) (c : String)
    (r1 : List String) (h : es.any (fun p => p.1 == c) = false) :
    isRegularFileAt (.dir es) (c :: r1) = false := by
  simp only [isRegularFileAt, findEntry_not_found es c h]

/-- Path semantics of a directory with one more entry in front, provided
the remaining entries do not reuse its name: a path either enters the new
entry (first component equal to its name) or resolves in the rest. -/
lemma isRegularFileAt_cons (nm : String) (t : FsTree) (rest : List (String × FsTree))
    (r : List String) (hnm : rest.any (fun p => p.1 == nm) = false) :
    isRegularFileAt (.dir ((nm, t) :: rest)) r =
      ((match r with
        | c :: r1 => if c = nm then isRegularFileAt t r1 else false
        | [] => false) || isRegularFileAt (.dir rest) r) := by
  rcases r with _ | ⟨c, r1⟩
  · rfl
  · by_cases hc : c = nm
    · subst hc
      rw [isRegularFileAt_dir_cons_self, isRegularFileAt_dir_not_found rest c r1 hnm]
      simp
    · rw [isRegularFileAt_dir_cons_ne nm c t rest r1 hc]
      simp [hc]

lemma exists_head_decomp (nm : String) (t : FsTree) (P : List String → Prop) :
    (∃ r, (match r with
      | c :: r1 => if c = nm then isRegularFileAt t r1 else false
      | [] => false) = true ∧ P r) ↔
    ∃ r1, isRegularFileAt t r1 = true ∧ P (nm :: r1) := by
  constructor
  · rintro ⟨r, hr, hP⟩
    rcases r with _ | ⟨c, r1⟩
    · exact absurd hr (by simp)
    · have hr1 : (if c = nm then isRegularFileAt t r1 else false) = true := hr
      by_cases hc : c = nm
      · rw [if_pos hc] at hr1
        subst hc
        exact ⟨r1, hr1, hP⟩
      · rw [if_neg hc] at hr1
        exact absurd hr1 (by simp)
  · rintro ⟨r1, hr, hP⟩
    refine ⟨nm :: r1, ?_, hP⟩
    show (if nm = nm then isRegularFileAt t r1 else false) = true
    rw [if_pos rfl]
    exact hr

lemma exists_rhs_decomp (nm : String) (t : FsTree) (rest : List (String × FsTree))
    (P : List String → Prop) (hnm : rest.any (fun p => p.1 == nm) = false) :
    (∃ r, isRegularFileAt (.dir ((nm, t) :: rest)) r = true ∧ P r) ↔
      ((∃ r1, isRegularFileAt t r1 = true ∧ P (nm :: r1)) ∨
       (∃ r, isRegularFileAt (.dir rest) r = true ∧ P r)) := by
  rw [← exists_head_decomp nm t P, ← exists_or]
  apply exists_congr
  intro r
  rw [isRegularFileAt_cons nm t rest r hnm, Bool.or_eq_true, or_and_right]

lemma exists_file_decomp (P : List String → Prop) :
    (∃ r1, isRegularFileAt .file r1 = true ∧ P r1) ↔ P [] := by
  constructor
  · rintro ⟨r1, hr, hP⟩
    rcases r1 with _ | ⟨c, r2⟩
    · exact hP
    · simp [isRegularFileAt] at hr
  · intro h
    exact ⟨[], rfl, h⟩

lemma mem_ite_singleton (b : Bool) (x y : CopiedFile) :
    (y ∈ if b = true then [x] else []) ↔ b = true ∧ y = x := by
  cases b <;> simp

/-- Membership in the copy-step walk: a record is produced at prefix
`pre` iff it reports a regular file reachable from the entries without
passing a symbolic link, whose relative path matches the include set and
not the exclude set. -/
lemma collect_mem_iff (m : String → List String → Bool) (inc exc sd dd : List String) :
    ∀ (es : List (String × FsTree)) (pre : List String) (cf : CopiedFile),
    wfEntries es = true →
    (cf ∈ collect_matching_files m inc exc sd dd pre es ↔
      ∃ r, isRegularFileAt (.dir es) r = true ∧
        cf = { name := pre ++ r, source := sd ++ (pre ++ r),
               destination := dd ++ (pre ++ r) } ∧
        isMatch m inc (pre ++ r) = true ∧ isMatch m exc (pre ++ r) = false)
  | [], pre, cf => by
    intro _
    rw [collect_matching_files]
    simp only [List.not_mem_nil, false_iff, not_exists]
    intro r hand
    rcases r with _ | ⟨c, r1⟩
    · exact absurd hand.1 (by simp [isRegularFileAt])
    · rw [isRegularFileAt_dir_not_found [] c r1 rfl] at hand
      exact absurd hand.1 (by simp)
  | (nm, FsTree.symlink) :: rest, pre, cf => by
    intro hwf
    rw [wfEntries.eq_3 nm FsTree.symlink rest (fun es h => FsTree.noConfusion h),
      Bool.true_and, Bool.and_eq_true, Bool.not_eq_true'] at hwf
    obtain ⟨hnm, hwrest⟩ := hwf
    rw [collect_matching_files.eq_2, List.mem_append,
      collect_mem_iff m inc exc sd dd rest pre cf hwrest,
      exists_rhs_decomp nm FsTree.symlink rest _ hnm]
    apply or_congr _ Iff.rfl
    constructor
    · intro h
      exact absurd h (List.not_mem_nil cf)
    · rintro ⟨r1, hr, _⟩
      rw [isRegularFileAt_symlink r1] at hr
      exact Bool.noConfusion hr
  | (nm, FsTree.special) :: rest, pre, cf => by
    intro hwf
    rw [wfEntries.eq_3 nm FsTree.special rest (fun es h => FsTree.noConfusion h),
      Bool.true_and, Bool.and_eq_true, Bool.not_eq_true'] at hwf
    obtain ⟨hnm, hwrest⟩ := hwf
    rw [collect_matching_files.eq_3, List.mem_append,
      collect_mem_iff m inc exc sd dd rest pre cf hwrest,
      exists_rhs_decomp nm FsTree.special rest _ hnm]
    apply or_congr _ Iff.rfl
    constructor
    · intro h
      exact absurd h (List.not_mem_nil cf)
    · rintro ⟨r1, hr, _⟩
      rw [isRegularFileAt_special r1] at hr
      exact Bool.noConfusion hr
  | (nm, FsTree.file) :: rest, pre, cf => by
    intro hwf
    rw [wfEntries.eq_3 nm FsTree.file rest (fun es h => FsTree.noConfusion h),
      Bool.true_and, Bool.and_eq_true, Bool.not_eq_true'] at hwf
    obtain ⟨hnm, hwrest⟩ := hwf
    rw [collect_matching_files.eq_5, List.mem_append,
      collect_mem_iff m inc exc sd dd rest pre cf hwrest,
      exists_rhs_decomp nm FsTree.file rest _ hnm]
    apply or_congr _ Iff.rfl
    show cf ∈ (if (isMatch m inc (pre ++ [nm]) && !isMatch m exc (pre ++ [nm])) = true
        then [{ name := pre ++ [nm], source := sd ++ (pre ++ [nm]),
                destination := dd ++ (pre ++ [nm]) }] else ([] : List CopiedFile)) ↔ _
    rw [mem_ite_singleton,
      exists_file_decomp (fun r1 =>
        cf = { name := pre ++ (nm :: r1), source := sd ++ (pre ++ (nm :: r1)),
               destination := dd ++ (pre ++ (nm :: r1)) } ∧
        isMatch m inc (pre ++ (nm :: r1)) = true ∧
        isMatch m exc (pre ++ (nm :: r1)) = false)]
    simp only [Bool.and_eq_true, Bool.not_eq_true']
    constructor
    · rintro ⟨⟨hin, hex⟩, hcf⟩
      exact ⟨hcf, hin, hex⟩
    · rintro ⟨hcf, hin, hex⟩
      exact ⟨⟨hin, hex⟩, hcf⟩
  | (nm, FsTree.dir es1) :: rest, pre, cf => by
    intro hwf
    rw [wfEntries.eq_2, Bool.and_eq_true, Bool.and_eq_true, Bool.not_eq_true'] at hwf
    obtain ⟨⟨hwt1, hnm⟩, hwrest⟩ := hwf
    rw [collect_matching_files.eq_4, List.mem_append,
      collect_mem_iff m inc exc sd dd rest pre cf hwrest,
      exists_rhs_decomp nm (FsTree.dir es1) rest _ hnm]
    apply or_congr _ Iff.rfl
    rw [collect_mem_iff m inc exc sd dd es1 (pre ++ [nm]) cf hwt1]
    apply exists_congr
    intro r1
    rw [← List.append_cons pre nm r1]

/-- C7: the copy step copies a file iff it is a regular file in the
source tree, reached without following any symbolic link, whose path
relative to the source root matches the include set (patterns without a
leading `'!'`) and no exclusion pattern; the include and exclude sets are
split off once before the walk; and every copied file is reported with
its relative name, source path and destination path. -/
theorem execute_copy_step_spec (m : String → List String → Bool)
    (sourceDir destDir : List String) (patterns : List String)
    (es : List (String × FsTree)) (hwf : wfEntries es = true) :
    ∃ copied, execute_copy_step m sourceDir destDir patterns (.dir es) = .ok copied ∧
      ∀ cf, cf ∈ copied ↔
        (isRegularFileAt (.dir es) cf.name = true ∧
         isMatch m (splitPatterns patterns).1 cf.name = true ∧
         isMatch m (splitPatterns patterns).2 cf.name = false ∧
         cf.source = sourceDir ++ cf.name ∧ cf.destination = destDir ++ cf.name) := by
  refine ⟨_, rfl, ?_⟩
  intro cf
  rw [collect_mem_iff m (splitPatterns patterns).1 (splitPatterns patterns).2
    sourceDir destDir es [] cf hwf]
  constructor
  · rintro ⟨r, hr, hcf, hin, hex⟩
    subst hcf
    exact ⟨by simpa using hr, by simpa using hin, by simpa using hex, by simp, by simp⟩
  · rintro ⟨hreg, hin, hex, hsrc, hdst⟩
    refine ⟨cf.name, by simpa using hreg, ?_, by simpa using hin, by simpa using hex⟩
    obtain ⟨n, s, d⟩ := cf
    simp only [List.nil_append] at hsrc hdst ⊢
    rw [hsrc, hdst]

/-- Witness for C7 at the spec's example: from files `.env`,
`.env.local`, `.env.example` and a symlinked directory, with patterns
`[".env*", "!.env.example"]`, exactly `.env` and `.env.local` are copied
(reported with source and destination), `.env.example` is excluded, and
nothing under the symlink is copied. -/
theorem execute_copy_step_spec_witness :
    ∃ copied,
      execute_copy_step c7Match ["src"] ["dst"] [".env*", "!.env.example"]
        (.dir c7Entries) = .ok copied ∧
      ({ name := [".env"], source := ["src", ".env"],
         destination := ["dst", ".env"] } : CopiedFile) ∈ copied ∧
      ({ name := [".env.local"], source := ["src", ".env.local"],
         destination := ["dst", ".env.local"] } : CopiedFile) ∈ copied ∧
      (∀ cf, cf ∈ copied → cf.name ≠ [".env.example"]) ∧
      (∀ cf, cf ∈ copied → ∀ r, cf.name ≠ "linked" :: r) := by
  obtain ⟨copied, heq, hiff⟩ :=
    execute_copy_step_spec c7Match ["src"] ["dst"] [".env*", "!.env.example"]
      c7Entries (by simp [c7Entries, wfEntries])
  refine ⟨copied, heq, ?_, ?_, ?_, ?_⟩
  · exact (hiff _).2 ⟨by decide, by decide, by decide, rfl, rfl⟩
  · exact (hiff _).2 ⟨by decide, by decide, by decide, rfl, rfl⟩
  · intro cf hcf hname
    have h := (hiff cf).1 hcf
    rw [hname] at h
    have hex := h.2.2.1
    exact absurd hex (by decide)
  · intro cf hcf r hname
    have h := (hiff cf).1 hcf
    rw [hname] at h
    have hreg := h.1
    rw [show c7Entries = [(".env", FsTree.file), (".env.local", FsTree.file),
      (".env.example", FsTree.file), ("linked", FsTree.symlink)] from rfl] at hreg
    rw [isRegularFileAt_dir_cons_ne ".env" "linked" .file _ r (by decide)] at hreg
    rw [isRegularFileAt_dir_cons_ne ".env.local" "linked" .file _ r (by decide)] at hreg
    rw [isRegularFileAt_dir_cons_ne ".env.example" "linked" .file _ r (by decide)] at hreg
    rw [isRegularFileAt_dir_cons_self "linked" .symlink [] r] at hreg
    rw [isRegularFileAt_symlink r] at hreg
    exact Bool.noConfusion hreg

end Trench
